import Mathlib

/-!
Verification of the gpt-rewind conversation-analytics system.

The frontend TypeScript (slide-data route, slide components, slide-data
context, insights page navigation) is embedded directly from the sources.
The backend ML pipeline modules (pipeline.py, conversation_compression.py,
embeddings.py, question_analytics.py) are not part of the checked-in
sources; only their documentation is. Definitions for those parts are
modelled from the specification and are marked as such in their doc
comments.
-/

namespace GptRewind

/-! ### A small JSON value model (JS values crossing the data boundary) -/

inductive Json where
  | null
  | bool (b : Bool)
  | num (q : ℚ)
  | str (s : String)
  | arr (elems : List Json)
  | obj (fields : List (String × Json))

/-- JavaScript truthiness of a JSON value (undefined is modelled as a
missing key, i.e. an Option none at the lookup site). -/
def Json.truthy : Json → Bool
  | .null => false
  | .bool b => b
  | .num q => if q = 0 then false else true
  | .str s => if s = "" then false else true
  | .arr _ => true
  | .obj _ => true

/-- Property access on a JS object literal: first binding for the key. -/
def jsonLookup (fields : List (String × Json)) (k : String) : Option Json :=
  (fields.find? (fun p => p.1 == k)).map Prod.snd

/-- The JS expression v || 0 applied to an optional property value. -/
def jsOrZero (v : Option Json) : Json :=
  match v with
  | some j => if j.truthy then j else Json.num 0
  | none => Json.num 0

/-! ### WhenYouChatSlide (frontend/src/components/slides/WhenYouChatSlide.tsx)

The component derives a 24-entry hourly-activity array from the slide data
object via Array.from with length 24 mapping i to data[String(i)] || 0. -/

def hourlyActivityOf (data : List (String × Json)) : List Json :=
  (List.range 24).map (fun i => jsOrZero (jsonLookup data (toString i)))

/-! ### Insights page navigation (frontend/src/app/insights/page.tsx)

handleNext sets the index to (prev + 1) % postcards.length and handleBack
to (prev - 1 + postcards.length) % postcards.length; the postcards array
has ten elements. JS % is truncated remainder, Int.tmod. -/

def postcardsLength : Int := 10

def handleNext (prev : Int) : Int :=
  Int.tmod (prev + 1) postcardsLength

def handleBack (prev : Int) : Int :=
  Int.tmod (prev - 1 + postcardsLength) postcardsLength

inductive NavOp where
  | next
  | back
deriving DecidableEq

def navStep (i : Int) : NavOp → Int
  | .next => handleNext i
  | .back => handleBack i

/-- The current slide index after a sequence of navigation events,
starting from the initial state useState(0). -/
def runNav (ops : List NavOp) : Int :=
  ops.foldl navStep 0

/-! ### Slide-data fetching caches

Two variants of fetchSlideData exist in the sources. The promise-cache
variant (src/unnamed/part_004) keeps one promise per cache key forever and
returns the cached promise object itself on every later call. The
two-cache variant (frontend/src/contexts/SlideDataContext.tsx) keeps a
dataCache of resolved values and a pendingPromises map, and deletes the
pending entry both when the request resolves and when it rejects.
Promises are modelled by numeric identities; requestLog records, in
order, the cache keys for which an HTTP request was started. -/

def cacheKey (conversationId : String) (slide : Int) : String :=
  conversationId ++ "-" ++ toString slide

structure PromiseCacheState where
  promiseCache : List (String × Nat)
  nextId : Nat
  requestLog : List String
deriving DecidableEq

def initialPromiseCache : PromiseCacheState :=
  { promiseCache := [], nextId := 0, requestLog := [] }

def lookupKey (m : List (String × Nat)) (k : String) : Option Nat :=
  (m.find? (fun p => p.1 == k)).map Prod.snd

/-- fetchSlideData of the promise-cache variant: return the cached promise
when present, otherwise start a request, cache the new promise and return
it. -/
def fetchSlideData (conversationId : String) (slide : Int)
    (s : PromiseCacheState) : Nat × PromiseCacheState :=
  let key := cacheKey conversationId slide
  match lookupKey s.promiseCache key with
  | some p => (p, s)
  | none =>
    (s.nextId,
      { promiseCache := (key, s.nextId) :: s.promiseCache
        nextId := s.nextId + 1
        requestLog := s.requestLog ++ [key] })

/-- refetch of the promise-cache variant: delete the cache key. -/
def refetch (conversationId : String) (slide : Int)
    (s : PromiseCacheState) : PromiseCacheState :=
  { s with promiseCache :=
      s.promiseCache.filter (fun p => p.1 != cacheKey conversationId slide) }

/-- A sequence of fetchSlideData calls threaded through the promise-cache
state, starting from the module-level empty caches. -/
def runFetches (calls : List (String × Int)) : PromiseCacheState :=
  calls.foldl (fun s c => (fetchSlideData c.1 c.2 s).2) initialPromiseCache

/-- State of the two-cache variant: keys with resolved data, keys with an
in-flight request, and the request log. -/
structure SlideDataState where
  dataCache : List String
  pendingKeys : List String
  requestLog : List String
deriving DecidableEq

inductive SlideDataEvent where
  | call (conversationId : String) (slide : Int)
  | fulfill (key : String)
  | reject (key : String)
deriving DecidableEq

/-- One event of the two-cache variant. A call returns straight from
dataCache or pendingPromises when the key is present and otherwise starts
a request; the then-handler of the request stores the data and deletes the
pending entry; the catch-handler deletes the pending entry. -/
def slideDataStep (s : SlideDataState) : SlideDataEvent → SlideDataState
  | .call conversationId slide =>
    let key := cacheKey conversationId slide
    if key ∈ s.dataCache then s
    else if key ∈ s.pendingKeys then s
    else { s with pendingKeys := key :: s.pendingKeys
                  requestLog := s.requestLog ++ [key] }
  | .fulfill key =>
    if key ∈ s.pendingKeys then
      { s with dataCache := key :: s.dataCache
               pendingKeys := s.pendingKeys.filter (fun k => decide (k ≠ key)) }
    else s
  | .reject key =>
    if key ∈ s.pendingKeys then
      { s with pendingKeys := s.pendingKeys.filter (fun k => decide (k ≠ key)) }
    else s

def runSlideData (events : List SlideDataEvent) : SlideDataState :=
  events.foldl slideDataStep { dataCache := [], pendingKeys := [], requestLog := [] }

/-- Invariant of the promise-cache variant: every key was requested at
most once, and a key not in the cache was never requested. -/
def promiseCacheInv (s : PromiseCacheState) : Prop :=
  ∀ k, s.requestLog.count k ≤ 1 ∧
    (lookupKey s.promiseCache k = none → s.requestLog.count k = 0)

/-- Invariant of the two-cache variant on reject-free histories: every key
was requested at most once, and a key in neither cache was never
requested. -/
def slideDataInv (s : SlideDataState) : Prop :=
  ∀ k, s.requestLog.count k ≤ 1 ∧
    (k ∉ s.dataCache → k ∉ s.pendingKeys → s.requestLog.count k = 0)

/-! ### Slide-data API route (frontend/src/app/api/slide-data/route.ts)

The GET handler checks the session, requires a pageIndex query parameter,
parses it with parseInt, and switches on the parsed number: cases -1
through 10 answer 200 with the slide payload, the default answers 404. -/

inductive RouteResponse where
  | ok (body : Json)
  | badRequest
  | unauthorized
  | notFound (pageIndexNum : Option Int)

def statusOf : RouteResponse → Nat
  | .ok _ => 200
  | .badRequest => 400
  | .unauthorized => 401
  | .notFound _ => 404

def jnums (l : List ℚ) : Json := .arr (l.map .num)

def jstrs (l : List String) : Json := .arr (l.map .str)

/-- The switch statement of the GET handler, one branch per literal slide
payload currently served. -/
def slideDataFor (i : Int) : Option Json :=
  if i = -1 then some (.obj [])
  else if i = 0 then some (.obj [("totalHours", .num (255/2))])
  else if i = 1 then
    some (.obj [("monthlyHours", jnums [12, 15, 18, 22, 19, 25, 28, 24, 20, 16, 14, 11])])
  else if i = 2 then
    some (.obj [("hourlyActivity", jnums [2, 1, 0, 0, 1, 3, 8, 12, 15, 18, 22, 25,
      28, 30, 26, 22, 20, 18, 24, 28, 32, 26, 18, 8])])
  else if i = 3 then some (.obj [("longestConversationHours", .num (23/4))])
  else if i = 4 then some (.obj [("easiestQuestion", .str "write python")])
  else if i = 5 then
    some (.obj [("hardestQuestion", .str "optimize distributed system architecture")])
  else if i = 6 then some (.obj [("estimatedProfession", .str "Software Engineer")])
  else if i = 7 then
    some (.obj [("topTopics", jstrs ["Machine Learning", "Web Development", "Data Structures"])])
  else if i = 8 then
    some (.obj [("monthlyTopics", jstrs ["Python Basics", "Web Development",
      "Web Development", "Machine Learning", "Machine Learning", "Data Science",
      "APIs", "APIs", "Cloud Computing", "DevOps", "DevOps", "System Design"])])
  else if i = 9 then
    some (.obj [("hourlyTopics", jstrs ["Sleep", "Sleep", "Sleep", "Sleep", "Sleep",
      "Sleep", "Morning Routine", "Commute", "Work", "Work", "Work", "Lunch",
      "Meetings", "Work", "Work", "Break", "Projects", "Commute", "Dinner",
      "Relaxation", "Hobbies", "Entertainment", "Homework", "Sleep"])])
  else if i = 10 then some (.obj [])
  else none

/-- Dispatch on the parsed pageIndex number; none models NaN, which falls
through to the default 404 branch. -/
def routeSwitch (pageIndexNum : Option Int) : RouteResponse :=
  match pageIndexNum with
  | none => .notFound none
  | some n =>
    match slideDataFor n with
    | some d => .ok d
    | none => .notFound (some n)

/-- The GET handler: 401 without a session, 400 when the pageIndex query
parameter is missing or empty (falsy), otherwise the switch on the parsed
number. String.toInt? models parseInt on canonical integer numerals. -/
def slideDataGET (authed : Bool) (pageIndexParam : Option String) : RouteResponse :=
  if authed = false then .unauthorized
  else
    match pageIndexParam with
    | none => .badRequest
    | some p =>
      if p = "" then .badRequest
      else routeSwitch p.toInt?

/-! ### Insight extraction and the pipeline state machine

pipeline.py is not part of the checked-in sources; the definitions below
are modelled from the specification (sections 4.4 and 4.5) and from the
ML README (insight pages -1 through 10, placeholders for the indices whose
optional stage did not run). -/

structure PipelineConfig where
  enableEmbeddings : Bool
  enableAnalytics : Bool

structure CompressionResult where
  totalHours : ℚ
  monthlyHours : List ℚ
  hourlyActivity : List ℚ
  longestConversationHours : ℚ
  totalMessages : Nat
  totalConversations : Nat

/-- The embeddings artifact: one vector per message identifier. -/
def EmbeddingResult : Type := List (String × List ℚ)

structure AnalyticsResult where
  easiestText : String
  hardestText : String
  topTopics : List String

structure InsightRecord where
  pageIndex : Int
  payload : Json

/-- The reserved slide index range, intro sentinel -1 through outro
sentinel 10. -/
def reservedSlideIndices : List Int :=
  [-1, 0, 1, 2, 3, 4, 5, 6, 7, 8, 9, 10]

/-- Modelled from the spec: the payload of one insight page emitted by
extract_insights in pipeline.py (not under src/). Indices that depend on
analytics fall back to a placeholder when the stage output is absent;
indices 6, 8 and 9 are documented placeholders. -/
def insightPayload (i : Int) (c : CompressionResult) (a : Option AnalyticsResult) : Json :=
  if i = -1 then .obj [("type", .str "intro")]
  else if i = 0 then .obj [("type", .str "total_hours"), ("value", .num c.totalHours)]
  else if i = 1 then .obj [("type", .str "hours_by_month"), ("values", jnums c.monthlyHours)]
  else if i = 2 then
    .obj [("type", .str "hours_by_time_of_day"), ("values", jnums c.hourlyActivity)]
  else if i = 3 then
    .obj [("type", .str "longest_conversation"), ("value", .num c.longestConversationHours)]
  else if i = 4 then
    match a with
    | some r => .obj [("type", .str "easiest_question"), ("text", .str r.easiestText)]
    | none => .obj [("type", .str "placeholder")]
  else if i = 5 then
    match a with
    | some r => .obj [("type", .str "hardest_question"), ("text", .str r.hardestText)]
    | none => .obj [("type", .str "placeholder")]
  else if i = 6 then .obj [("type", .str "placeholder")]
  else if i = 7 then
    match a with
    | some r => .obj [("type", .str "top_topics"), ("topics", jstrs r.topTopics)]
    | none => .obj [("type", .str "placeholder")]
  else if i = 8 then .obj [("type", .str "placeholder")]
  else if i = 9 then .obj [("type", .str "placeholder")]
  else .obj [("type", .str "outro")]

/-- Modelled from the spec: extract_insights emits one record per
reserved slide index; the embeddings artifact feeds no page directly but
is part of the contract signature. -/
def extract_insights (c : CompressionResult) (e : Option EmbeddingResult)
    (a : Option AnalyticsResult) : List InsightRecord :=
  reservedSlideIndices.map (fun i => { pageIndex := i, payload := insightPayload i c a })

inductive PipelineState where
  | created
  | compressing
  | embedding
  | analyzing
  | extracting
  | done
  | failed
deriving DecidableEq

/-- Outcome of each stage attempt for one run (success or failure). -/
structure StageOutcome where
  compressOk : Bool
  embedOk : Bool
  analyzeOk : Bool

def embedAvailable (cfg : PipelineConfig) (out : StageOutcome) : Bool :=
  cfg.enableEmbeddings && out.embedOk

/-- Analytics runs only when enabled and the embeddings artifact exists. -/
def analyticsRuns (cfg : PipelineConfig) (out : StageOutcome) : Bool :=
  cfg.enableAnalytics && embedAvailable cfg out

def analyticsAvailable (cfg : PipelineConfig) (out : StageOutcome) : Bool :=
  analyticsRuns cfg out && out.analyzeOk

/-- Modelled from the spec: the state sequence of run_pipeline in
pipeline.py (not under src/), section 4.5. Compression failure is the only
transition into Failed; optional-stage failures continue to Extracting. -/
def pipelineTrace (cfg : PipelineConfig) (out : StageOutcome) : List PipelineState :=
  [.created, .compressing] ++
    (if out.compressOk = false then [.failed]
     else
       (if cfg.enableEmbeddings then [.embedding] else []) ++
       (if analyticsRuns cfg out then [.analyzing] else []) ++
       [.extracting, .done])

/-- Modelled from the spec: the insight set carried by Done; a failed
optional stage contributes an absent artifact. -/
def pipelineResult (cfg : PipelineConfig) (out : StageOutcome) (c : CompressionResult)
    (e : EmbeddingResult) (a : AnalyticsResult) : Option (List InsightRecord) :=
  if out.compressOk = false then none
  else
    some (extract_insights c
      (if embedAvailable cfg out then some e else none)
      (if analyticsAvailable cfg out then some a else none))

/-! ### Normalizer, Embedder and Difficulty Scorer

conversation_compression.py, embeddings.py and question_analytics.py are
not part of the checked-in sources; the definitions below are modelled
from the specification (sections 4.1 to 4.3) and the ML documentation. -/

inductive Role where
  | user
  | assistant
deriving DecidableEq

structure RawMessage where
  id : String
  role : Role
  text : String
  ts : Int
deriving DecidableEq

/-- Modelled from the spec: the fixed stopword set of the Normalizer. -/
def stopwords : List String :=
  ["the", "a", "an", "and", "or", "but", "is", "are", "was", "to", "of", "in", "it", "you", "i"]

/-- Modelled from the spec: per-message cleaning in
conversation_compression.py (not under src/): lowercase, split on spaces,
drop stopwords and empty tokens, rejoin. A message whose text cleans to
the empty string is kept, not removed. -/
def cleanText (t : String) : String :=
  String.intercalate " "
    ((t.toLower.splitOn " ").filter (fun w => decide (w ≠ "") && !stopwords.contains w))

structure CompressedMsg where
  id : String
  role : Role
  cleaned : String
  ts : Int
deriving DecidableEq

/-- Modelled from the spec: compression keeps every message, with its
identifier unchanged, carrying the cleaned text. -/
def compressMessages (msgs : List RawMessage) : List CompressedMsg :=
  msgs.map (fun m => CompressedMsg.mk m.id m.role (cleanText m.text) m.ts)

/-- The fixed placeholder vector for empty-text messages. -/
def zeroVector (dim : Nat) : List ℚ :=
  List.replicate dim 0

structure EmbMsg where
  id : String
  role : Role
  text : String
  ts : Int
  vec : List ℚ
deriving DecidableEq

/-- Modelled from the spec: generate_embeddings in embeddings.py (not
under src/). The model argument stands for the pretrained encoder; every
compressed record gets a vector under its unchanged identifier, empty-text
records the placeholder vector. -/
def generate_embeddings (dim : Nat) (model : String → List ℚ)
    (recs : List CompressedMsg) : List EmbMsg :=
  recs.map (fun r =>
    EmbMsg.mk r.id r.role r.cleaned r.ts
      (if r.cleaned = "" then zeroVector dim else model r.cleaned))

/-- The embeddings artifact as (message identifier, vector) pairs. -/
def embeddingVectors (ems : List EmbMsg) : List (String × List ℚ) :=
  ems.map (fun m => (m.id, m.vec))

def dot (a b : List ℚ) : ℚ :=
  (List.zipWith (fun x y => x * y) a b).sum

/-- Similarities from one message to every other user message in the
pool. -/
def similaritiesTo (m : EmbMsg) (pool : List EmbMsg) : List ℚ :=
  (pool.filter (fun q => decide (q.role = Role.user) && decide (q.id ≠ m.id))).map
    (fun q => dot m.vec q.vec)

/-- The k largest similarity values. -/
def topSimilarities (k : Nat) (sims : List ℚ) : List ℚ :=
  ((List.insertionSort (fun a b => a ≤ b) sims).reverse).take k

/-- Modelled from the spec: the difficulty heuristic of
question_analytics.py (not under src/): inverse of the mean similarity to
the k nearest other user questions, a pure function of the embedding
set. -/
def difficulty (k : Nat) (pool : List EmbMsg) (m : EmbMsg) : ℚ :=
  1 - (topSimilarities k (similaritiesTo m pool)).sum / (k : ℚ)

structure QuestionScore where
  id : String
  score : ℚ
deriving DecidableEq

/-- Modelled from the spec: one QuestionScore per user-authored message
with an embedding, keyed by the unchanged message identifier. -/
def questionScores (k : Nat) (pool : List EmbMsg) : List QuestionScore :=
  (pool.filter (fun q => decide (q.role = Role.user))).map
    (fun m => QuestionScore.mk m.id (difficulty k pool m))

/-! ### Extremes extraction (analyze_questions) -/

structure ScoredQuestion where
  id : String
  text : String
  ts : Int
  score : ℚ
deriving DecidableEq

def pickHarder (best cur : ScoredQuestion) : ScoredQuestion :=
  if best.score < cur.score ∨ (cur.score = best.score ∧ cur.ts < best.ts) then cur else best

def pickEasier (best cur : ScoredQuestion) : ScoredQuestion :=
  if cur.score < best.score ∨ (cur.score = best.score ∧ cur.ts < best.ts) then cur else best

/-- Modelled from the spec: hardest = maximum difficulty score, ties
broken by earliest timestamp; the record carries the literal text. -/
def hardestQuestion : List ScoredQuestion → Option ScoredQuestion
  | [] => none
  | q :: qs => some (qs.foldl pickHarder q)

/-- Modelled from the spec: easiest = minimum difficulty score, ties
broken by earliest timestamp; the record carries the literal text. -/
def easiestQuestion : List ScoredQuestion → Option ScoredQuestion
  | [] => none
  | q :: qs => some (qs.foldl pickEasier q)

/-- Modelled from the spec: the extremes pair returned by
analyze_questions in question_analytics.py (not under src/), including the
text field per the v2 integration bug fix. -/
def analyze_questions_extremes (qs : List ScoredQuestion) :
    Option ScoredQuestion × Option ScoredQuestion :=
  (hardestQuestion qs, easiestQuestion qs)

/-! ### Normalizer trailing-year window and usage hours -/

structure DatedMessage where
  id : String
  text : String
  year : Int
  month : Int
deriving DecidableEq

/-- Absolute calendar-month index of a message timestamp. -/
def monthIndexOf (m : DatedMessage) : Int :=
  m.year * 12 + (m.month - 1)

/-- The newest (largest) month index present in a non-empty archive. -/
def newestMonthIndex (m0 : DatedMessage) (ms : List DatedMessage) : Int :=
  (ms.map monthIndexOf).foldl max (monthIndexOf m0)

/-- Modelled from the spec: the Normalizer filter of
conversation_compression.py (not under src/): keep exactly the messages
whose month lies in the trailing 12-calendar-month window ending at the
newest message timestamp of the archive itself. -/
def filterTrailingYear : List DatedMessage → List DatedMessage
  | [] => []
  | m0 :: ms =>
    let newest := newestMonthIndex m0 ms
    (m0 :: ms).filter (fun x =>
      decide (newest - 11 ≤ monthIndexOf x) && decide (monthIndexOf x ≤ newest))

/-- Clamp bound on the active-time contribution of one message gap. -/
def gapCapHours : ℚ := mkRat 1 2

/-- Modelled from the spec: estimated active time of one consecutive
message gap, clamped below at zero and above at the cap so idle gaps do
not inflate duration. -/
def gapContribution (t1 t2 : ℚ) : ℚ :=
  min (max (t2 - t1) 0) gapCapHours

/-- Usage hours of one monthly bucket of message timestamps. -/
def sessionHours (tss : List ℚ) : ℚ :=
  ((tss.zip tss.tail).map (fun p => gapContribution p.1 p.2)).sum

/-- Modelled from the spec: usage hours of every monthly bucket. -/
def monthlyUsageHours (buckets : List (List ℚ)) : List ℚ :=
  buckets.map sessionHours

def argmaxAux : List ℚ → Nat × ℚ → Nat → Nat × ℚ
  | [], best, _ => best
  | v :: vs, best, i =>
    if best.2 < v then argmaxAux vs (i, v) (i + 1) else argmaxAux vs best (i + 1)

/-- Modelled from the spec: the peak month is the argmax over the monthly
hours array, first index on ties. -/
def peakMonth : List ℚ → Nat
  | [] => 0
  | v :: vs => (argmaxAux vs (0, v) 1).1

/-- A sample compression artifact used to instantiate theorems. -/
def sampleCompression : CompressionResult :=
  { totalHours := 0, monthlyHours := [], hourlyActivity := [],
    longestConversationHours := 0, totalMessages := 0, totalConversations := 0 }

/-- A sample analytics artifact used to instantiate theorems. -/
def sampleAnalytics : AnalyticsResult :=
  { easiestText := "write python", hardestText := "optimize distributed system architecture",
    topTopics := ["Machine Learning"] }

/-- Sample messages used to instantiate theorems. -/
def sampleMsgNew : DatedMessage := DatedMessage.mk "b" "recent question" 2025 3

def sampleMsgOld : DatedMessage := DatedMessage.mk "a" "old question" 2024 1

def sampleQ1 : ScoredQuestion := ScoredQuestion.mk "m1" "what is a variable" 1 (mkRat 1 5)

def sampleQ2 : ScoredQuestion := ScoredQuestion.mk "m2" "prove P equals NP" 2 (mkRat 9 10)

def sampleQ3 : ScoredQuestion := ScoredQuestion.mk "m3" "explain monads" 3 (mkRat 1 2)

def sampleEmbA : EmbMsg := EmbMsg.mk "a" Role.user "alpha" 1 [1, 0]

def sampleEmbB : EmbMsg := EmbMsg.mk "b" Role.user "beta" 2 [0, 1]

/-! ### Theorems -/

theorem navStep_bounds (i : Int) (h0 : 0 ≤ i) (h9 : i ≤ 9) (op : NavOp) :
    0 ≤ navStep i op ∧ navStep i op ≤ 9 := by
  cases op <;> · interval_cases i <;> decide

theorem runNav_aux (ops : List NavOp) :
    ∀ i : Int, 0 ≤ i → i ≤ 9 → 0 ≤ ops.foldl navStep i ∧ ops.foldl navStep i ≤ 9 := by
  induction ops with
  | nil => intro i h0 h9; exact ⟨h0, h9⟩
  | cons op rest ih =>
    intro i h0 h9
    have hb := navStep_bounds i h0 h9 op
    exact ih (navStep i op) hb.1 hb.2

/-- Claim C9: starting from slide index 0, any sequence of handleNext and
handleBack events keeps the current index within 0 .. postcards.length - 1
(wrap-around in both directions), and handleBack undoes handleNext on every
in-range index. -/
theorem insights_nav_invariant :
    (∀ ops : List NavOp, 0 ≤ runNav ops ∧ runNav ops ≤ postcardsLength - 1) ∧
    (∀ i : Int, 0 ≤ i → i ≤ postcardsLength - 1 → handleBack (handleNext i) = i) := by
  constructor
  · intro ops
    have h := runNav_aux ops 0 (by decide) (by decide)
    exact ⟨h.1, by simpa [postcardsLength] using h.2⟩
  · intro i h0 h9
    have h9 : i ≤ 9 := by simpa [postcardsLength] using h9
    interval_cases i <;> decide

/-- Concrete instantiation of the navigation claim. -/
theorem insights_nav_invariant_witness :
    (0 ≤ runNav [NavOp.back, NavOp.back, NavOp.next] ∧
      runNav [NavOp.back, NavOp.back, NavOp.next] ≤ postcardsLength - 1) ∧
    handleBack (handleNext 4) = 4 :=
  ⟨insights_nav_invariant.1 [NavOp.back, NavOp.back, NavOp.next],
   insights_nav_invariant.2 4 (by decide) (by decide)⟩

/-- Claim C10: for every slide data object, the derived hourly activity is
a total list of exactly 24 entries; entry h is the value at key String(h)
when that key is present and truthy, and the number 0 when the key is
absent or its value is falsy. -/
theorem whenYouChat_hourly_total (data : List (String × Json)) :
    (hourlyActivityOf data).length = 24 ∧
    (∀ h : Nat, h < 24 → ∀ v, jsonLookup data (toString h) = some v →
      v.truthy = true → (hourlyActivityOf data)[h]? = some v) ∧
    (∀ h : Nat, h < 24 → ∀ v, jsonLookup data (toString h) = some v →
      v.truthy = false → (hourlyActivityOf data)[h]? = some (Json.num 0)) ∧
    (∀ h : Nat, h < 24 → jsonLookup data (toString h) = none →
      (hourlyActivityOf data)[h]? = some (Json.num 0)) := by
  have hget : ∀ h : Nat, h < 24 →
      (hourlyActivityOf data)[h]? = some (jsOrZero (jsonLookup data (toString h))) := by
    intro h hh
    simp [hourlyActivityOf, List.getElem?_map, List.getElem?_range, hh]
  refine ⟨by simp [hourlyActivityOf], ?_, ?_, ?_⟩
  · intro h hh v hv htr
    rw [hget h hh, hv]
    simp [jsOrZero, htr]
  · intro h hh v hv htr
    rw [hget h hh, hv]
    simp [jsOrZero, htr]
  · intro h hh hv
    rw [hget h hh, hv]
    simp [jsOrZero]

/-- Concrete instantiation of the hourly-activity claim. -/
theorem whenYouChat_hourly_total_witness :
    (hourlyActivityOf [("3", Json.num 5), ("7", Json.num 0)]).length = 24 ∧
    (hourlyActivityOf [("3", Json.num 5), ("7", Json.num 0)])[3]? = some (Json.num 5) ∧
    (hourlyActivityOf [("3", Json.num 5), ("7", Json.num 0)])[7]? = some (Json.num 0) ∧
    (hourlyActivityOf [("3", Json.num 5), ("7", Json.num 0)])[5]? = some (Json.num 0) :=
  ⟨(whenYouChat_hourly_total _).1,
   (whenYouChat_hourly_total _).2.1 3 (by decide) (Json.num 5) rfl rfl,
   (whenYouChat_hourly_total _).2.2.1 7 (by decide) (Json.num 0) rfl rfl,
   (whenYouChat_hourly_total _).2.2.2 5 (by decide) rfl⟩

theorem lookupKey_cons_self (a : String) (b : Nat) (m : List (String × Nat)) :
    lookupKey ((a, b) :: m) a = some b := by
  simp [lookupKey, List.find?_cons_of_pos]

theorem lookupKey_cons_ne (a : String) (b : Nat) (m : List (String × Nat))
    (k : String) (h : a ≠ k) : lookupKey ((a, b) :: m) k = lookupKey m k := by
  have : ((a, b).1 == k) = false := by simpa using h
  simp [lookupKey, List.find?_cons, this]

theorem fetchSlideData_idem (cid : String) (slide : Int) (s : PromiseCacheState) :
    fetchSlideData cid slide ((fetchSlideData cid slide s).2) = fetchSlideData cid slide s := by
  unfold fetchSlideData
  cases hl : lookupKey s.promiseCache (cacheKey cid slide) with
  | some p => simp [hl]
  | none => simp [hl, lookupKey_cons_self]

theorem fetch_preserves_inv (cid : String) (slide : Int) (s : PromiseCacheState)
    (hs : promiseCacheInv s) : promiseCacheInv (fetchSlideData cid slide s).2 := by
  unfold fetchSlideData
  cases hl : lookupKey s.promiseCache (cacheKey cid slide) with
  | some p => simpa [hl] using hs
  | none =>
    simp only [hl]
    intro k
    by_cases hk : k = cacheKey cid slide
    · have h0 : s.requestLog.count (cacheKey cid slide) = 0 := (hs _).2 hl
      constructor
      · simp [hk, List.count_append, h0]
      · intro hnone
        rw [hk, lookupKey_cons_self] at hnone
        exact absurd hnone (by simp)
    · have hcnt : (s.requestLog ++ [cacheKey cid slide]).count k = s.requestLog.count k := by
        simp [List.count_append, List.count_singleton, hk]
      constructor
      · rw [hcnt]; exact (hs k).1
      · intro hnone
        rw [lookupKey_cons_ne _ _ _ _ (fun h => hk h.symm)] at hnone
        rw [hcnt]; exact (hs k).2 hnone

theorem runFetches_inv (calls : List (String × Int)) :
    promiseCacheInv (runFetches calls) := by
  have aux : ∀ (cs : List (String × Int)) (s : PromiseCacheState),
      promiseCacheInv s →
      promiseCacheInv (cs.foldl (fun s c => (fetchSlideData c.1 c.2 s).2) s) := by
    intro cs
    induction cs with
    | nil => intro s hs; exact hs
    | cons c rest ih => intro s hs; exact ih _ (fetch_preserves_inv c.1 c.2 s hs)
  refine aux calls initialPromiseCache ?_
  intro k
  exact ⟨by simp [initialPromiseCache], fun _ => by simp [initialPromiseCache]⟩

theorem slideDataStep_preserves (s : SlideDataState) (e : SlideDataEvent)
    (he : ∀ k, e ≠ .reject k) (hs : slideDataInv s) :
    slideDataInv (slideDataStep s e) := by
  cases e with
  | call cid slide =>
    by_cases h1 : cacheKey cid slide ∈ s.dataCache
    · simpa [slideDataStep, h1] using hs
    · by_cases h2 : cacheKey cid slide ∈ s.pendingKeys
      · simpa [slideDataStep, h1, h2] using hs
      · simp only [slideDataStep, h1, h2, if_false, if_neg]
        intro k
        by_cases hk : k = cacheKey cid slide
        · have h0 : s.requestLog.count (cacheKey cid slide) = 0 := (hs _).2 h1 h2
          refine ⟨by simp [hk, List.count_append, h0], ?_⟩
          intro _ hnp
          exact absurd (by rw [hk]; exact List.mem_cons_self _ _) hnp
        · have hcnt : (s.requestLog ++ [cacheKey cid slide]).count k
              = s.requestLog.count k := by
            simp [List.count_append, List.count_singleton, hk]
          refine ⟨by rw [hcnt]; exact (hs k).1, ?_⟩
          intro hnd hnp
          rw [hcnt]
          exact (hs k).2 hnd (fun hmem => hnp (List.mem_cons_of_mem _ hmem))
  | fulfill key =>
    by_cases h : key ∈ s.pendingKeys
    · simp only [slideDataStep, h, if_pos]
      intro k
      refine ⟨(hs k).1, ?_⟩
      intro hnd hnp
      have hkkey : k ≠ key := fun hk => hnd (hk ▸ List.mem_cons_self _ _)
      have hnd2 : k ∉ s.dataCache := fun hmem => hnd (List.mem_cons_of_mem _ hmem)
      have hnp2 : k ∉ s.pendingKeys := by
        intro hmem
        exact hnp (List.mem_filter.mpr ⟨hmem, by simpa using hkkey⟩)
      exact (hs k).2 hnd2 hnp2
    · simpa [slideDataStep, h] using hs
  | reject key => exact absurd rfl (he key)

theorem runSlideData_inv (events : List SlideDataEvent)
    (he : ∀ k, SlideDataEvent.reject k ∉ events) :
    slideDataInv (runSlideData events) := by
  have aux : ∀ (es : List SlideDataEvent) (s : SlideDataState),
      (∀ k, SlideDataEvent.reject k ∉ es) → slideDataInv s →
      slideDataInv (es.foldl slideDataStep s) := by
    intro es
    induction es with
    | nil => intro s _ hs; exact hs
    | cons e rest ih =>
      intro s hno hs
      refine ih _ (fun k hmem => hno k (List.mem_cons_of_mem _ hmem)) ?_
      refine slideDataStep_preserves s e (fun k hk => ?_) hs
      exact hno k (hk ▸ List.mem_cons_self _ _)
  refine aux events _ he ?_
  intro k
  exact ⟨by simp, fun _ _ => by simp⟩

/-- Claim C8, counterexample to the claim as stated: in the two-cache
variant of fetchSlideData (SlideDataContext.tsx), a rejected fetch deletes
the pending entry, so a later call for the same key issues a second HTTP
request even though refetch never deleted the key. -/
theorem fetchSlideData_failed_request_refetches :
    (runSlideData [SlideDataEvent.call "c" 1, SlideDataEvent.reject (cacheKey "c" 1),
        SlideDataEvent.call "c" 1]).requestLog = [cacheKey "c" 1, cacheKey "c" 1] ∧
    ¬ ((runSlideData [SlideDataEvent.call "c" 1, SlideDataEvent.reject (cacheKey "c" 1),
        SlideDataEvent.call "c" 1]).requestLog.count (cacheKey "c" 1) ≤ 1) := by
  constructor
  · rfl
  · decide

/-- Claim C8 (amended): in the promise-cache variant of fetchSlideData
(part_004) a repeated fetch for the same key returns the identical cached
promise and changes nothing, any sequence of fetches issues at most one
HTTP request per key, and refetch deletes exactly that key; in the
two-cache variant (SlideDataContext.tsx) every reject-free history also
issues at most one request per key, while a rejected request permits one
more (see the counterexample). -/
theorem fetchSlideData_memoized :
    (∀ (cid : String) (slide : Int) (s : PromiseCacheState),
      fetchSlideData cid slide ((fetchSlideData cid slide s).2)
        = fetchSlideData cid slide s) ∧
    (∀ (calls : List (String × Int)) (k : String),
      (runFetches calls).requestLog.count k ≤ 1) ∧
    (∀ (events : List SlideDataEvent), (∀ k, SlideDataEvent.reject k ∉ events) →
      ∀ k, (runSlideData events).requestLog.count k ≤ 1) ∧
    (∀ (cid : String) (slide : Int) (s : PromiseCacheState),
      lookupKey (refetch cid slide s).promiseCache (cacheKey cid slide) = none) := by
  refine ⟨fetchSlideData_idem, fun calls k => (runFetches_inv calls k).1,
    fun events he k => (runSlideData_inv events he k).1, ?_⟩
  intro cid slide s
  have hnone : List.find? (fun p => p.1 == cacheKey cid slide)
      (List.filter (fun p => p.1 != cacheKey cid slide) s.promiseCache) = none := by
    rw [List.find?_eq_none]
    intro p hp
    have h2 := (List.mem_filter.mp hp).2
    simpa using h2
  simp [lookupKey, refetch, hnone]

/-- Concrete instantiation of the amended memoization claim. -/
theorem fetchSlideData_memoized_witness :
    fetchSlideData "c" 1 ((fetchSlideData "c" 1 initialPromiseCache).2)
      = fetchSlideData "c" 1 initialPromiseCache ∧
    (runFetches [("c", 1), ("c", 1), ("d", 2)]).requestLog.count (cacheKey "c" 1) ≤ 1 ∧
    (runSlideData [SlideDataEvent.call "c" 1, SlideDataEvent.fulfill (cacheKey "c" 1),
        SlideDataEvent.call "c" 1]).requestLog.count (cacheKey "c" 1) ≤ 1 ∧
    lookupKey (refetch "c" 1 (runFetches [("c", 1)])).promiseCache (cacheKey "c" 1) = none :=
  ⟨fetchSlideData_memoized.1 "c" 1 _,
   fetchSlideData_memoized.2.1 [("c", 1), ("c", 1), ("d", 2)] (cacheKey "c" 1),
   fetchSlideData_memoized.2.2.1 _ (by intro k; simp) (cacheKey "c" 1),
   fetchSlideData_memoized.2.2.2 "c" 1 _⟩

/-- Claim C1: every integer slide index from the intro sentinel -1 through
the outro sentinel 10 is answered by the slide-data route with a record,
every integer index outside that range is answered with a not-found error,
and the insight extractor emits exactly one record per reserved index with
a count independent of the optional-stage artifacts. -/
theorem slide_index_coverage :
    (∀ i : Int, -1 ≤ i → i ≤ 10 →
      ∃ d, slideDataFor i = some d ∧ routeSwitch (some i) = .ok d) ∧
    (∀ i : Int, i < -1 ∨ 10 < i → routeSwitch (some i) = .notFound (some i)) ∧
    (∀ s : String, ¬ s = "" → slideDataGET true (some s) = routeSwitch s.toInt?) ∧
    (∀ c e a, (extract_insights c e a).map (fun r => r.pageIndex) = reservedSlideIndices) ∧
    (∀ c e a, (extract_insights c e a).length = 12) ∧
    (∀ c e₁ a₁ e₂ a₂,
      (extract_insights c e₁ a₁).length = (extract_insights c e₂ a₂).length) ∧
    (∀ c e a, ∀ i : Int, -1 ≤ i → i ≤ 10 →
      (extract_insights c e a).countP (fun r => r.pageIndex == i) = 1) := by
  refine ⟨?_, ?_, ?_, ?_, ?_, ?_, ?_⟩
  · intro i h1 h2
    interval_cases i <;> exact ⟨_, rfl, rfl⟩
  · intro i hi
    have hnone : slideDataFor i = none := by
      unfold slideDataFor
      iterate 12 rw [if_neg (by omega)]
    simp [routeSwitch, hnone]
  · intro s hs
    simp [slideDataGET, hs]
  · intro c e a; rfl
  · intro c e a; rfl
  · intro c e₁ a₁ e₂ a₂; rfl
  · intro c e a i h1 h2
    interval_cases i <;> rfl

/-- Concrete instantiation of the slide-index coverage claim. -/
theorem slide_index_coverage_witness :
    (∃ d, slideDataFor 4 = some d ∧ routeSwitch (some 4) = .ok d) ∧
    routeSwitch (some 11) = .notFound (some 11) ∧
    routeSwitch (some (-2)) = .notFound (some (-2)) ∧
    slideDataGET true (some "4") = routeSwitch ("4".toInt?) ∧
    (extract_insights sampleCompression none none).countP
      (fun r => r.pageIndex == 5) = 1 :=
  ⟨slide_index_coverage.1 4 (by decide) (by decide),
   slide_index_coverage.2.1 11 (Or.inr (by decide)),
   slide_index_coverage.2.1 (-2) (Or.inl (by decide)),
   slide_index_coverage.2.2.1 "4" (by decide),
   slide_index_coverage.2.2.2.2.2.2 _ none none 5 (by decide) (by decide)⟩

/-- Claim C3: in the orchestrator state machine the Failed terminal state
is reachable only from Compressing; a failed optional stage transitions
directly to Extracting with its artifact treated as absent, and the run
still ends in Done carrying a complete 12-record insight set. -/
theorem pipeline_failed_only_from_compressing :
    ∀ (cfg : PipelineConfig) (out : StageOutcome),
      (PipelineState.failed ∈ pipelineTrace cfg out →
        pipelineTrace cfg out = [.created, .compressing, .failed]) ∧
      (out.compressOk = true → PipelineState.failed ∉ pipelineTrace cfg out ∧
        (pipelineTrace cfg out).getLast? = some .done) ∧
      (out.compressOk = true → cfg.enableEmbeddings = true → out.embedOk = false →
        pipelineTrace cfg out = [.created, .compressing, .embedding, .extracting, .done]) ∧
      (out.compressOk = true → analyticsRuns cfg out = true → out.analyzeOk = false →
        pipelineTrace cfg out
          = [.created, .compressing, .embedding, .analyzing, .extracting, .done]) ∧
      (out.compressOk = true → ∀ c e a, ∃ recs,
        pipelineResult cfg out c e a = some recs ∧ recs.length = 12 ∧
        recs.map (fun r => r.pageIndex) = reservedSlideIndices) ∧
      (out.compressOk = true → cfg.enableEmbeddings = true → out.embedOk = false →
        ∀ c e a, pipelineResult cfg out c e a = some (extract_insights c none none)) := by
  intro cfg out
  obtain ⟨ce, ca⟩ := cfg
  obtain ⟨co, eo, ao⟩ := out
  refine ⟨?_, ?_, ?_, ?_, ?_, ?_⟩
  · cases ce <;> cases ca <;> cases co <;> cases eo <;> cases ao <;> decide
  · cases ce <;> cases ca <;> cases co <;> cases eo <;> cases ao <;> decide
  · cases ce <;> cases ca <;> cases co <;> cases eo <;> cases ao <;> decide
  · cases ce <;> cases ca <;> cases co <;> cases eo <;> cases ao <;> decide
  · intro hco c e a
    have h1 : co = true := hco
    subst h1
    exact ⟨_, rfl, rfl, rfl⟩
  · intro hco hce heo c e a
    have h1 : co = true := hco
    have h2 : ce = true := hce
    have h3 : eo = false := heo
    subst h1
    subst h2
    subst h3
    simp [pipelineResult, embedAvailable, analyticsAvailable, analyticsRuns]

/-- Concrete instantiation of the state-machine claim: embeddings enabled
and failing, analytics enabled. -/
theorem pipeline_failed_only_from_compressing_witness :
    pipelineTrace (PipelineConfig.mk true true) (StageOutcome.mk true false true)
      = [.created, .compressing, .embedding, .extracting, .done] ∧
    pipelineResult (PipelineConfig.mk true true) (StageOutcome.mk true false true)
        sampleCompression ([] : EmbeddingResult) sampleAnalytics
      = some (extract_insights sampleCompression none none) :=
  ⟨(pipeline_failed_only_from_compressing _ _).2.2.1 rfl rfl rfl,
   (pipeline_failed_only_from_compressing _ _).2.2.2.2.2 rfl rfl rfl _ _ _⟩

/-- Claim C2: message identifiers are preserved unchanged from RawExport
through CompressedRecord, EmbeddingVector and QuestionScore, the embedding
output is one-to-one with the compressed input (same identifier sequence,
same length; empty-text messages covered by the placeholder vector), and
every QuestionScore identifier comes from the raw export. -/
theorem join_key_invariant :
    ∀ (msgs : List RawMessage) (dim : Nat) (model : String → List ℚ) (k : Nat),
      (compressMessages msgs).map (fun r => r.id) = msgs.map (fun m => m.id) ∧
      (generate_embeddings dim model (compressMessages msgs)).map (fun m => m.id)
        = (compressMessages msgs).map (fun r => r.id) ∧
      (embeddingVectors (generate_embeddings dim model (compressMessages msgs))).map
          Prod.fst
        = (compressMessages msgs).map (fun r => r.id) ∧
      (generate_embeddings dim model (compressMessages msgs)).length
        = (compressMessages msgs).length ∧
      (∀ m ∈ generate_embeddings dim model (compressMessages msgs),
        m.text = "" → m.vec = zeroVector dim) ∧
      (∀ q ∈ questionScores k (generate_embeddings dim model (compressMessages msgs)),
        q.id ∈ msgs.map (fun m => m.id)) := by
  intro msgs dim model k
  have h1 : (compressMessages msgs).map (fun r => r.id) = msgs.map (fun m => m.id) := by
    simp [compressMessages, List.map_map]
  have h2 : (generate_embeddings dim model (compressMessages msgs)).map (fun m => m.id)
      = (compressMessages msgs).map (fun r => r.id) := by
    simp [generate_embeddings, List.map_map]
  refine ⟨h1, h2, ?_, ?_, ?_, ?_⟩
  · rw [← h2]
    simp [embeddingVectors, List.map_map]
  · simp [generate_embeddings]
  · intro m hm
    simp only [generate_embeddings, List.mem_map] at hm
    obtain ⟨r, _, rfl⟩ := hm
    intro htext
    simp only at htext
    simp [htext]
  · intro q hq
    simp only [questionScores, List.mem_map] at hq
    obtain ⟨m, hm, rfl⟩ := hq
    have hmem : m ∈ generate_embeddings dim model (compressMessages msgs) :=
      List.mem_of_mem_filter hm
    have hid : m.id ∈ (generate_embeddings dim model (compressMessages msgs)).map
        (fun m => m.id) := List.mem_map_of_mem _ hmem
    rw [h2, h1] at hid
    exact hid

/-- Concrete instantiation of the join-key invariant. -/
theorem join_key_invariant_witness :
    (compressMessages [RawMessage.mk "m1" Role.user "how do i sort the list" 5]).map
        (fun r => r.id)
      = [RawMessage.mk "m1" Role.user "how do i sort the list" 5].map (fun m => m.id) ∧
    (generate_embeddings 2 (fun _ => [1, 1])
        (compressMessages [RawMessage.mk "m1" Role.user "how do i sort the list" 5])).length
      = (compressMessages [RawMessage.mk "m1" Role.user "how do i sort the list" 5]).length :=
  ⟨(join_key_invariant [RawMessage.mk "m1" Role.user "how do i sort the list" 5]
      2 (fun _ => [1, 1]) 3).1,
   (join_key_invariant [RawMessage.mk "m1" Role.user "how do i sort the list" 5]
      2 (fun _ => [1, 1]) 3).2.2.2.1⟩

theorem insertionSort_eq_of_perm (l₁ l₂ : List ℚ) (h : l₁.Perm l₂) :
    List.insertionSort (fun a b => a ≤ b) l₁ = List.insertionSort (fun a b => a ≤ b) l₂ :=
  List.eq_of_perm_of_sorted
    ((List.perm_insertionSort _ l₁).trans (h.trans (List.perm_insertionSort _ l₂).symm))
    (List.sorted_insertionSort _ l₁) (List.sorted_insertionSort _ l₂)

theorem difficulty_of_perm (k : Nat) (pool₁ pool₂ : List EmbMsg)
    (h : pool₁.Perm pool₂) (m : EmbMsg) :
    difficulty k pool₁ m = difficulty k pool₂ m := by
  unfold difficulty topSimilarities similaritiesTo
  rw [insertionSort_eq_of_perm _ _ ((h.filter _).map _)]

/-- Claim C7: difficulty scoring is a pure function of the embedding set:
for every permutation of the processing order each individual score value
is unchanged, and the aggregated QuestionScore collection is the same up
to order, so result aggregation is commutative. -/
theorem difficulty_scoring_commutative :
    ∀ (k : Nat) (pool₁ pool₂ : List EmbMsg), pool₁.Perm pool₂ →
      (∀ m : EmbMsg, difficulty k pool₁ m = difficulty k pool₂ m) ∧
      (questionScores k pool₁).Perm (questionScores k pool₂) := by
  intro k pool₁ pool₂ h
  refine ⟨fun m => difficulty_of_perm k pool₁ pool₂ h m, ?_⟩
  have hstep : questionScores k pool₁
      = (pool₁.filter (fun q => decide (q.role = Role.user))).map
          (fun m => QuestionScore.mk m.id (difficulty k pool₂ m)) := by
    unfold questionScores
    exact List.map_congr_left
      (fun m _ => by rw [difficulty_of_perm k pool₁ pool₂ h m])
  rw [hstep]
  exact (h.filter _).map _

/-- Concrete instantiation of the scoring-commutativity claim. -/
theorem difficulty_scoring_commutative_witness :
    difficulty 1 [sampleEmbA, sampleEmbB] sampleEmbA
      = difficulty 1 [sampleEmbB, sampleEmbA] sampleEmbA ∧
    (questionScores 1 [sampleEmbA, sampleEmbB]).Perm
      (questionScores 1 [sampleEmbB, sampleEmbA]) :=
  ⟨(difficulty_scoring_commutative 1 [sampleEmbA, sampleEmbB] [sampleEmbB, sampleEmbA]
      (List.Perm.swap sampleEmbB sampleEmbA [])).1 sampleEmbA,
   (difficulty_scoring_commutative 1 [sampleEmbA, sampleEmbB] [sampleEmbB, sampleEmbA]
      (List.Perm.swap sampleEmbB sampleEmbA [])).2⟩

theorem pickHarder_cases (b c : ScoredQuestion) :
    pickHarder b c = b ∨ pickHarder b c = c := by
  unfold pickHarder
  by_cases h : b.score < c.score ∨ (c.score = b.score ∧ c.ts < b.ts)
  · rw [if_pos h]; exact Or.inr rfl
  · rw [if_neg h]; exact Or.inl rfl

theorem pickHarder_left (b c : ScoredQuestion) :
    b.score ≤ (pickHarder b c).score ∧
      (b.score = (pickHarder b c).score → (pickHarder b c).ts ≤ b.ts) := by
  unfold pickHarder
  by_cases h : b.score < c.score ∨ (c.score = b.score ∧ c.ts < b.ts)
  · rw [if_pos h]
    rcases h with h | ⟨h1, h2⟩
    · exact ⟨le_of_lt h, fun he => absurd he (ne_of_lt h)⟩
    · exact ⟨le_of_eq h1.symm, fun _ => le_of_lt h2⟩
  · rw [if_neg h]; exact ⟨le_refl _, fun _ => le_refl _⟩

theorem pickHarder_right (b c : ScoredQuestion) :
    c.score ≤ (pickHarder b c).score ∧
      (c.score = (pickHarder b c).score → (pickHarder b c).ts ≤ c.ts) := by
  unfold pickHarder
  by_cases h : b.score < c.score ∨ (c.score = b.score ∧ c.ts < b.ts)
  · rw [if_pos h]; exact ⟨le_refl _, fun _ => le_refl _⟩
  · rw [if_neg h]
    push_neg at h
    exact ⟨h.1, fun he => h.2 he⟩

theorem pickEasier_cases (b c : ScoredQuestion) :
    pickEasier b c = b ∨ pickEasier b c = c := by
  unfold pickEasier
  by_cases h : c.score < b.score ∨ (c.score = b.score ∧ c.ts < b.ts)
  · rw [if_pos h]; exact Or.inr rfl
  · rw [if_neg h]; exact Or.inl rfl

theorem pickEasier_left (b c : ScoredQuestion) :
    (pickEasier b c).score ≤ b.score ∧
      (b.score = (pickEasier b c).score → (pickEasier b c).ts ≤ b.ts) := by
  unfold pickEasier
  by_cases h : c.score < b.score ∨ (c.score = b.score ∧ c.ts < b.ts)
  · rw [if_pos h]
    rcases h with h | ⟨h1, h2⟩
    · exact ⟨le_of_lt h, fun he => absurd he.symm (ne_of_lt h)⟩
    · exact ⟨le_of_eq h1, fun _ => le_of_lt h2⟩
  · rw [if_neg h]; exact ⟨le_refl _, fun _ => le_refl _⟩

theorem pickEasier_right (b c : ScoredQuestion) :
    (pickEasier b c).score ≤ c.score ∧
      (c.score = (pickEasier b c).score → (pickEasier b c).ts ≤ c.ts) := by
  unfold pickEasier
  by_cases h : c.score < b.score ∨ (c.score = b.score ∧ c.ts < b.ts)
  · rw [if_pos h]; exact ⟨le_refl _, fun _ => le_refl _⟩
  · rw [if_neg h]
    push_neg at h
    exact ⟨h.1, fun he => h.2 he⟩

theorem score_chain_max (x b r : ScoredQuestion)
    (hxb : x.score ≤ b.score) (hxbts : x.score = b.score → b.ts ≤ x.ts)
    (hbr : b.score ≤ r.score) (hbrts : b.score = r.score → r.ts ≤ b.ts) :
    x.score ≤ r.score ∧ (x.score = r.score → r.ts ≤ x.ts) := by
  refine ⟨le_trans hxb hbr, ?_⟩
  intro he
  have h1 : b.score = r.score := le_antisymm hbr (he.symm.trans_le hxb)
  exact le_trans (hbrts h1) (hxbts (he.trans h1.symm))

theorem score_chain_min (x b r : ScoredQuestion)
    (hbx : b.score ≤ x.score) (hxbts : x.score = b.score → b.ts ≤ x.ts)
    (hrb : r.score ≤ b.score) (hbrts : b.score = r.score → r.ts ≤ b.ts) :
    r.score ≤ x.score ∧ (x.score = r.score → r.ts ≤ x.ts) := by
  refine ⟨le_trans hrb hbx, ?_⟩
  intro he
  have h1 : b.score = r.score := le_antisymm (hbx.trans he.le) hrb
  exact le_trans (hbrts h1) (hxbts (he.trans h1.symm))

theorem foldl_pickHarder_spec :
    ∀ (qs : List ScoredQuestion) (q : ScoredQuestion),
      qs.foldl pickHarder q ∈ q :: qs ∧
      ∀ x ∈ q :: qs, x.score ≤ (qs.foldl pickHarder q).score ∧
        (x.score = (qs.foldl pickHarder q).score → (qs.foldl pickHarder q).ts ≤ x.ts) := by
  intro qs
  induction qs with
  | nil =>
    intro q
    refine ⟨List.mem_cons_self _ _, ?_⟩
    intro x hx
    rw [List.mem_singleton] at hx
    subst hx
    exact ⟨le_refl _, fun _ => le_refl _⟩
  | cons c rest ih =>
    intro q
    simp only [List.foldl_cons]
    obtain ⟨ihmem, ihspec⟩ := ih (pickHarder q c)
    constructor
    · rcases List.mem_cons.mp ihmem with he | hmem
      · rcases pickHarder_cases q c with hbq | hbc
        · rw [he, hbq]; exact List.mem_cons_self _ _
        · rw [he, hbc]; exact List.mem_cons_of_mem _ (List.mem_cons_self _ _)
      · exact List.mem_cons_of_mem _ (List.mem_cons_of_mem _ hmem)
    · intro x hx
      have hqb := pickHarder_left q c
      have hcb := pickHarder_right q c
      have hbr := ihspec (pickHarder q c) (List.mem_cons_self _ _)
      rcases List.mem_cons.mp hx with hxq | hx1
      · subst hxq
        exact score_chain_max _ _ _ hqb.1 hqb.2 hbr.1 hbr.2
      · rcases List.mem_cons.mp hx1 with hxc | hx2
        · subst hxc
          exact score_chain_max _ _ _ hcb.1 hcb.2 hbr.1 hbr.2
        · exact ihspec x (List.mem_cons_of_mem _ hx2)

theorem foldl_pickEasier_spec :
    ∀ (qs : List ScoredQuestion) (q : ScoredQuestion),
      qs.foldl pickEasier q ∈ q :: qs ∧
      ∀ x ∈ q :: qs, (qs.foldl pickEasier q).score ≤ x.score ∧
        (x.score = (qs.foldl pickEasier q).score → (qs.foldl pickEasier q).ts ≤ x.ts) := by
  intro qs
  induction qs with
  | nil =>
    intro q
    refine ⟨List.mem_cons_self _ _, ?_⟩
    intro x hx
    rw [List.mem_singleton] at hx
    subst hx
    exact ⟨le_refl _, fun _ => le_refl _⟩
  | cons c rest ih =>
    intro q
    simp only [List.foldl_cons]
    obtain ⟨ihmem, ihspec⟩ := ih (pickEasier q c)
    constructor
    · rcases List.mem_cons.mp ihmem with he | hmem
      · rcases pickEasier_cases q c with hbq | hbc
        · rw [he, hbq]; exact List.mem_cons_self _ _
        · rw [he, hbc]; exact List.mem_cons_of_mem _ (List.mem_cons_self _ _)
      · exact List.mem_cons_of_mem _ (List.mem_cons_of_mem _ hmem)
    · intro x hx
      have hqb := pickEasier_left q c
      have hcb := pickEasier_right q c
      have hbr := ihspec (pickEasier q c) (List.mem_cons_self _ _)
      rcases List.mem_cons.mp hx with hxq | hx1
      · subst hxq
        exact score_chain_min _ _ _ hqb.1 hqb.2 hbr.1 hbr.2
      · rcases List.mem_cons.mp hx1 with hxc | hx2
        · subst hxc
          exact score_chain_min _ _ _ hcb.1 hcb.2 hbr.1 hbr.2
        · exact ihspec x (List.mem_cons_of_mem _ hx2)

/-- Claim C4: when at least one user message has a QuestionScore, the
hardest extreme is the maximum-score message and the easiest extreme the
minimum-score message, ties broken by earliest timestamp; both extremes
are records of the input carrying the literal message text, non-empty
whenever every scored question has non-empty text. -/
theorem extremes_extraction :
    ∀ (qs : List ScoredQuestion), qs ≠ [] →
      ∃ h e, analyze_questions_extremes qs = (some h, some e) ∧
        h ∈ qs ∧ e ∈ qs ∧
        (∀ x ∈ qs, x.score ≤ h.score) ∧
        (∀ x ∈ qs, x.score = h.score → h.ts ≤ x.ts) ∧
        (∀ x ∈ qs, e.score ≤ x.score) ∧
        (∀ x ∈ qs, x.score = e.score → e.ts ≤ x.ts) ∧
        ((∀ x ∈ qs, x.text ≠ "") → h.text ≠ "" ∧ e.text ≠ "") := by
  intro qs hne
  cases qs with
  | nil => exact absurd rfl hne
  | cons q rest =>
    obtain ⟨hmem, hspec⟩ := foldl_pickHarder_spec rest q
    obtain ⟨emem, espec⟩ := foldl_pickEasier_spec rest q
    refine ⟨rest.foldl pickHarder q, rest.foldl pickEasier q, rfl, hmem, emem,
      fun x hx => (hspec x hx).1, fun x hx => (hspec x hx).2,
      fun x hx => (espec x hx).1, fun x hx => (espec x hx).2, ?_⟩
    intro htext
    exact ⟨htext _ hmem, htext _ emem⟩

/-- Concrete instantiation of the extremes claim on difficulty scores
0.2, 0.9, 0.5: the hardest is the 0.9 message, the easiest the 0.2
message, both with their literal text. -/
theorem extremes_extraction_witness :
    hardestQuestion [sampleQ1, sampleQ2, sampleQ3] = some sampleQ2 ∧
    easiestQuestion [sampleQ1, sampleQ2, sampleQ3] = some sampleQ1 ∧
    (∃ h e, analyze_questions_extremes [sampleQ1, sampleQ2, sampleQ3] = (some h, some e) ∧
      h.text ≠ "" ∧ e.text ≠ "") := by
  refine ⟨by decide, by decide, ?_⟩
  obtain ⟨h, e, heq, _, _, _, _, _, _, htext⟩ :=
    extremes_extraction [sampleQ1, sampleQ2, sampleQ3] (by decide)
  obtain ⟨h1, h2⟩ := htext (by decide)
  exact ⟨h, e, heq, h1, h2⟩

theorem foldl_max_init_le : ∀ (l : List Int) (a : Int), a ≤ l.foldl max a := by
  intro l
  induction l with
  | nil => intro a; simp
  | cons x xs ih =>
    intro a
    simp only [List.foldl_cons]
    exact le_trans (le_max_left a x) (ih (max a x))

theorem foldl_max_mem_le : ∀ (l : List Int) (a : Int), ∀ x ∈ l, x ≤ l.foldl max a := by
  intro l
  induction l with
  | nil => intro a x hx; exact absurd hx (List.not_mem_nil x)
  | cons y ys ih =>
    intro a x hx
    simp only [List.foldl_cons]
    rcases List.mem_cons.mp hx with hxy | hmem
    · subst hxy
      exact le_trans (le_max_right a x) (foldl_max_init_le ys (max a x))
    · exact ih (max a y) x hmem

theorem foldl_max_attained : ∀ (l : List Int) (a : Int),
    l.foldl max a = a ∨ l.foldl max a ∈ l := by
  intro l
  induction l with
  | nil => intro a; exact Or.inl rfl
  | cons y ys ih =>
    intro a
    simp only [List.foldl_cons]
    rcases ih (max a y) with h | h
    · rcases max_choice a y with h2 | h2
      · exact Or.inl (h.trans h2)
      · exact Or.inr (List.mem_cons.mpr (Or.inl (h.trans h2)))
    · exact Or.inr (List.mem_cons_of_mem _ h)

/-- Claim C5: the Normalizer output contains exactly the messages whose
month index lies in the trailing 12-calendar-month window ending at the
newest message timestamp of the archive itself, and no others; the newest
bound is attained by a message of the archive, so the filter depends on
nothing but the input. -/
theorem normalizer_trailing_window :
    (∀ (m0 : DatedMessage) (ms : List DatedMessage),
      (∀ x, x ∈ filterTrailingYear (m0 :: ms) ↔
        x ∈ m0 :: ms ∧ newestMonthIndex m0 ms - 11 ≤ monthIndexOf x ∧
          monthIndexOf x ≤ newestMonthIndex m0 ms) ∧
      (∃ y ∈ m0 :: ms, monthIndexOf y = newestMonthIndex m0 ms) ∧
      (∀ y ∈ m0 :: ms, monthIndexOf y ≤ newestMonthIndex m0 ms)) ∧
    filterTrailingYear [] = [] := by
  refine ⟨?_, rfl⟩
  intro m0 ms
  refine ⟨?_, ?_, ?_⟩
  · intro x
    simp only [filterTrailingYear, List.mem_filter, Bool.and_eq_true, decide_eq_true_eq]
  · rcases foldl_max_attained (ms.map monthIndexOf) (monthIndexOf m0) with h | h
    · exact ⟨m0, List.mem_cons_self _ _, h.symm⟩
    · obtain ⟨y, hy, hyeq⟩ := List.mem_map.mp h
      exact ⟨y, List.mem_cons_of_mem _ hy, hyeq⟩
  · intro y hy
    rcases List.mem_cons.mp hy with hym | hmem
    · subst hym
      exact foldl_max_init_le (ms.map monthIndexOf) (monthIndexOf y)
    · exact foldl_max_mem_le (ms.map monthIndexOf) (monthIndexOf m0)
        (monthIndexOf y) (List.mem_map_of_mem _ hmem)

/-- Concrete instantiation of the trailing-window claim: a message 14
months older than the newest one is dropped, the newest one is kept. -/
theorem normalizer_trailing_window_witness :
    sampleMsgOld ∉ filterTrailingYear [sampleMsgNew, sampleMsgOld] ∧
    sampleMsgNew ∈ filterTrailingYear [sampleMsgNew, sampleMsgOld] := by
  constructor
  · intro hmem
    have h := ((normalizer_trailing_window.1 sampleMsgNew [sampleMsgOld]).1
      sampleMsgOld).mp hmem
    exact absurd h.2.1 (by decide)
  · exact ((normalizer_trailing_window.1 sampleMsgNew [sampleMsgOld]).1 sampleMsgNew).mpr
      ⟨List.mem_cons_self _ _, by decide, by decide⟩

theorem argmaxAux_spec :
    ∀ (vs : List ℚ) (bi i : Nat) (bv : ℚ),
      (((argmaxAux vs (bi, bv) i).1 = bi ∧ (argmaxAux vs (bi, bv) i).2 = bv) ∨
        ∃ j, j < vs.length ∧ (argmaxAux vs (bi, bv) i).1 = i + j ∧
          vs.getD j 0 = (argmaxAux vs (bi, bv) i).2) ∧
      bv ≤ (argmaxAux vs (bi, bv) i).2 ∧
      ∀ j, j < vs.length → vs.getD j 0 ≤ (argmaxAux vs (bi, bv) i).2 := by
  intro vs
  induction vs with
  | nil =>
    intro bi i bv
    exact ⟨Or.inl ⟨rfl, rfl⟩, le_refl _, fun j hj => absurd hj (by simp)⟩
  | cons v vs2 ih =>
    intro bi i bv
    by_cases hbv : bv < v
    · have harg : argmaxAux (v :: vs2) (bi, bv) i = argmaxAux vs2 (i, v) (i + 1) := by
        simp [argmaxAux, hbv]
      rw [harg]
      obtain ⟨hd, hle, hall⟩ := ih i (i + 1) v
      refine ⟨?_, le_trans (le_of_lt hbv) hle, ?_⟩
      · rcases hd with ⟨h1, h2⟩ | ⟨j, hj, hji, hjv⟩
        · exact Or.inr ⟨0, by simp, by omega, by simpa using h2.symm⟩
        · exact Or.inr ⟨j + 1, by simpa using Nat.succ_lt_succ hj, by omega,
            by simpa [List.getD_cons_succ] using hjv⟩
      · intro j hj
        cases j with
        | zero => simpa using hle
        | succ j2 =>
          simp only [List.getD_cons_succ]
          exact hall j2 (by simpa using Nat.lt_of_succ_lt_succ hj)
    · have harg : argmaxAux (v :: vs2) (bi, bv) i = argmaxAux vs2 (bi, bv) (i + 1) := by
        simp [argmaxAux, hbv]
      rw [harg]
      obtain ⟨hd, hle, hall⟩ := ih bi (i + 1) bv
      refine ⟨?_, hle, ?_⟩
      · rcases hd with h | ⟨j, hj, hji, hjv⟩
        · exact Or.inl h
        · exact Or.inr ⟨j + 1, by simpa using Nat.succ_lt_succ hj, by omega,
            by simpa [List.getD_cons_succ] using hjv⟩
      · intro j hj
        cases j with
        | zero => simpa using le_trans (not_lt.mp hbv) hle
        | succ j2 =>
          simp only [List.getD_cons_succ]
          exact hall j2 (by simpa using Nat.lt_of_succ_lt_succ hj)

/-- Claim C6: every monthly usage-hours value is non-negative (each gap
contribution is clamped into a non-negative range), and the reported peak
month is the argmax over the hours array. -/
theorem monthly_hours_nonneg_peak_argmax :
    ∀ (buckets : List (List ℚ)) (hours : List ℚ),
      (∀ h2 ∈ monthlyUsageHours buckets, 0 ≤ h2) ∧
      (hours ≠ [] → peakMonth hours < hours.length ∧
        ∀ i, i < hours.length → hours.getD i 0 ≤ hours.getD (peakMonth hours) 0) := by
  intro buckets hours
  constructor
  · intro h2 hm
    simp only [monthlyUsageHours, List.mem_map] at hm
    obtain ⟨tss, _, rfl⟩ := hm
    unfold sessionHours
    apply List.sum_nonneg
    intro x hx
    simp only [List.mem_map] at hx
    obtain ⟨p, _, rfl⟩ := hx
    unfold gapContribution
    exact le_min (le_max_right _ _) (by decide)
  · intro hne
    cases hours with
    | nil => exact absurd rfl hne
    | cons v vs =>
      obtain ⟨hd, hle, hall⟩ := argmaxAux_spec vs 0 1 v
      have hpeak : peakMonth (v :: vs) = (argmaxAux vs (0, v) 1).1 := rfl
      have hval : (v :: vs).getD (peakMonth (v :: vs)) 0 = (argmaxAux vs (0, v) 1).2 := by
        rw [hpeak]
        rcases hd with ⟨h1, h2⟩ | ⟨j, hj, hji, hjv⟩
        · rw [h1, h2]; simp
        · rw [hji, Nat.add_comm 1 j]
          simpa [List.getD_cons_succ] using hjv
      constructor
      · rw [hpeak]
        rcases hd with ⟨h1, _⟩ | ⟨j, hj, hji, _⟩
        · rw [h1]; simp
        · rw [hji]
          simp only [List.length_cons]
          omega
      · intro i hi
        rw [hval]
        cases i with
        | zero => simpa using hle
        | succ i2 =>
          simp only [List.getD_cons_succ]
          exact hall i2 (by simpa using Nat.lt_of_succ_lt_succ hi)

/-- Concrete instantiation of the monthly-hours claim: for the hours array
1, 2, 9, 3, 1, 1, 1, 1, 1, 1, 1, 1 the peak month index is 2. -/
theorem monthly_hours_nonneg_peak_argmax_witness :
    0 ≤ sessionHours [0, 1, 3] ∧
    peakMonth [1, 2, 9, 3, 1, 1, 1, 1, 1, 1, 1, 1] = 2 ∧
    peakMonth [1, 2, 9, 3, 1, 1, 1, 1, 1, 1, 1, 1]
      < ([1, 2, 9, 3, 1, 1, 1, 1, 1, 1, 1, 1] : List ℚ).length ∧
    ([1, 2, 9, 3, 1, 1, 1, 1, 1, 1, 1, 1] : List ℚ).getD 5 0
      ≤ ([1, 2, 9, 3, 1, 1, 1, 1, 1, 1, 1, 1] : List ℚ).getD
        (peakMonth [1, 2, 9, 3, 1, 1, 1, 1, 1, 1, 1, 1]) 0 := by
  have h := monthly_hours_nonneg_peak_argmax [[0, 1, 3]]
    [1, 2, 9, 3, 1, 1, 1, 1, 1, 1, 1, 1]
  have hp := h.2 (by decide)
  exact ⟨h.1 (sessionHours [0, 1, 3]) (by simp [monthlyUsageHours]),
    by decide, hp.1, hp.2 5 (by decide)⟩

end GptRewind
